import Mathlib

/-!
Verification development for the timepix3 repository. The repository ships a
thin example driver (src/example.py) over a compiled library exposing two
operations, `load` and `cluster`. The library implementation is not part of
the source tree, so the Packet Decoder, Hit Assembler and Cluster Engine are
modelled from the specification; the driver loop is embedded from
src/example.py directly.
-/

namespace timepix3

open scoped List

/-- Modelled from the spec: the fixed packet word size in bytes. The wire
format of the compiled library is not in the repository; the spec fixes only
that every packet is exactly one fixed word size, so a representative 8-byte
word is used. -/
def wordSize : Nat := 8

/-- Modelled from the spec: the range of the local (lower-resolution) pixel
timestamp counter carried inside a PixelHit packet; a representative 16-bit
counter is used. -/
def localRange : Nat := 65536

/-- Modelled from the spec: bound on pixel columns (sensor width). -/
def sensorWidth : Nat := 256

/-- Modelled from the spec: bound on pixel rows (sensor height). -/
def sensorHeight : Nat := 256

/-- Modelled from the spec: the tagged union of packet variants of the wire
format, with variants {PixelHit, TimestampGlobal, TimestampLocal, Control,
Unknown}. -/
inductive RawPacket where
  | pixelHit (col row localToa tot chip : Nat)
  | timestampGlobal (time : Nat)
  | timestampLocal (time : Nat)
  | control (isEnd : Bool)
  | unknown
deriving DecidableEq, Repr

/-- Modelled from the spec: a decoded, calibrated hit record: pixel column
and row, absolute time-of-arrival in ticks (after rollover correction),
time-over-threshold, and source-chip identifier. -/
structure Hit where
  col : Nat
  row : Nat
  toa : Nat
  tot : Nat
  chip : Nat
deriving DecidableEq, Repr

/-- Modelled from the spec: classify one fixed-size word by its
discriminator. The exact bit layout is an open question in the spec, so a
representative layout is used: byte 0 is the discriminator and the remaining
bytes hold the fields of the variant; unrecognized discriminator values
yield the Unknown variant rather than failing the decode. -/
def decodeWord (w : List Nat) : RawPacket :=
  let b : Nat → Nat := fun i => w.getD i 0
  if b 0 = 11 then
    .pixelHit (b 1) (b 2) ((b 3 * 256 + b 4) % localRange) (b 5) (b 6)
  else if b 0 = 6 then
    .timestampGlobal (b 1 * 16777216 + b 2 * 65536 + b 3 * 256 + b 4)
  else if b 0 = 5 then
    .timestampLocal (b 1 * 256 + b 2)
  else if b 0 = 7 then
    .control (b 1 == 1)
  else
    .unknown

/-- Modelled from the spec: the Packet Decoder splits the byte stream into
fixed-size words and decodes each one independently of file offset; an
undersized trailing remainder sets the truncation flag
(TruncatedCaptureWarning) while keeping all already-decoded packets, rather
than losing the whole file. -/
def decodePackets (bs : List Nat) : List RawPacket × Bool :=
  if h : wordSize ≤ bs.length then
    let rest := decodePackets (bs.drop wordSize)
    (decodeWord (bs.take wordSize) :: rest.1, rest.2)
  else
    ([], !bs.isEmpty)
termination_by bs.length
decreasing_by
  simp only [List.length_drop]
  simp only [wordSize] at h ⊢
  omega

/-- Modelled from the spec: the Hit Assembler state: the rolling absolute
time base from the last TimestampGlobal packet, the rollover-epoch counter,
the local timestamp of the previous PixelHit under the same base, and the
count of data-quality warnings. -/
structure AsmState where
  base : Nat
  epochs : Nat
  prevLocal : Option Nat
  warnings : Nat
deriving DecidableEq, Repr

/-- Initial assembler state: implicit zero base before any TimestampGlobal
packet. -/
def initState : AsmState := ⟨0, 0, none, 0⟩

/-- Modelled from the spec: process one packet. A TimestampGlobal packet
resets the base (and the per-base rollover tracking). A PixelHit combines
its local timestamp with the base; if the local timestamp decreased
relative to the previous PixelHit under the same base by more than half the
local counter range, the rollover-epoch counter is incremented before
combining. Out-of-bounds pixel coordinates are dropped with a warning.
TimestampLocal, Control and Unknown packets never produce Hit records. -/
def asmStep (s : AsmState) (p : RawPacket) : AsmState × Option Hit :=
  match p with
  | .pixelHit c r t tot chip =>
    if c < sensorWidth ∧ r < sensorHeight then
      let epochs :=
        match s.prevLocal with
        | some prev => if t < prev ∧ localRange / 2 < prev - t then s.epochs + 1 else s.epochs
        | none => s.epochs
      ({ s with epochs := epochs, prevLocal := some t },
       some ⟨c, r, s.base + epochs * localRange + t, tot, chip⟩)
    else
      ({ s with warnings := s.warnings + 1 }, none)
  | .timestampGlobal g => ({ s with base := g, epochs := 0, prevLocal := none }, none)
  | .timestampLocal _ => (s, none)
  | .control _ => (s, none)
  | .unknown => (s, none)

/-- Modelled from the spec: run the Hit Assembler over the packet sequence;
a Control packet signaling acquisition end truncates the stream at that
point without being an error. Returns the hits in packet order together
with the data-quality warning count. -/
def assemble (s : AsmState) : List RawPacket → List Hit × Nat
  | [] => ([], s.warnings)
  | .control true :: _ => ([], s.warnings)
  | p :: ps =>
    let r := asmStep s p
    let rest := assemble r.1 ps
    match r.2 with
    | some h => (h :: rest.1, rest.2)
    | none => rest

/-- Comparison by time-of-arrival, used for the stable sort of the
HitStream. -/
def toaLE (a b : Hit) : Bool := decide (a.toa ≤ b.toa)

/-- Modelled from the spec: the result of `load`: the HitStream, the
retrievable count of dropped/warned hits, and the TruncatedCaptureWarning
flag. -/
structure LoadResult where
  hits : List Hit
  warnings : Nat
  truncated : Bool
deriving DecidableEq, Repr

/-- The hits produced by Decoder then Assembler, still in packet order. -/
def rawHits (bs : List Nat) : List Hit := (assemble initState (decodePackets bs).1).1

/-- Modelled from the spec: `load` runs Decoder then Assembler and returns
the HitStream ordered non-decreasingly by time-of-arrival via a stable sort
(ties keep input packet order), plus the warning count and the truncation
flag. -/
def load (bs : List Nat) : LoadResult :=
  { hits := (rawHits bs).mergeSort toaLE
    warnings := (assemble initState (decodePackets bs).1).2
    truncated := (decodePackets bs).2 }

/-- Modelled from the spec: the recognized clustering options. -/
structure ClusterOptions where
  spatial_radius : Int
  temporal_window : Int
  min_cluster_size : Int
deriving DecidableEq, Repr

/-- Chebyshev distance over pixel coordinates (the documented metric;
Chebyshev distance 1 is 8-connectivity). -/
def cheb (a b : Hit) : Nat :=
  max ((a.col : Int) - (b.col : Int)).natAbs ((a.row : Int) - (b.row : Int)).natAbs

/-- Absolute time-of-arrival distance in ticks. -/
def tdist (a b : Hit) : Nat := ((a.toa : Int) - (b.toa : Int)).natAbs

/-- Modelled from the spec: a currently open (or finalized) cluster: its
identifier, its members tagged with their position in the input HitStream,
and the time-of-arrival of its most recent member. -/
structure OpenCluster where
  id : Nat
  members : List (Nat × Hit)
  lastToa : Nat
deriving DecidableEq, Repr

/-- Cluster Engine state: open clusters, finalized clusters, and the next
fresh cluster identifier. -/
structure EngineState where
  opens : List OpenCluster
  closed : List OpenCluster
  nextId : Nat
deriving DecidableEq, Repr

/-- Modelled from the spec: a hit matches an open cluster when it is within
the spatial radius and within the temporal window of at least one member. -/
def hitMatches (o : ClusterOptions) (h : Hit) (c : OpenCluster) : Bool :=
  c.members.any fun m =>
    decide ((cheb h m.2 : Int) ≤ o.spatial_radius ∧ (tdist h m.2 : Int) ≤ o.temporal_window)

/-- Modelled from the spec: a cluster is closed once the temporal window has
fully elapsed since its most recent member. -/
def clusterExpired (o : ClusterOptions) (h : Hit) (c : OpenCluster) : Bool :=
  decide (o.temporal_window < (h.toa : Int) - (c.lastToa : Int))

/-- Modelled from the spec: one Cluster Engine step for one indexed hit:
expired clusters are finalized; if the hit matches no still-open cluster it
starts a new cluster with a fresh identifier; if it matches several, they
are merged and the lower-numbered identifier survives. -/
def engineStep (o : ClusterOptions) (st : EngineState) (ih : Nat × Hit) : EngineState :=
  let stillOpen := st.opens.filter fun c => !clusterExpired o ih.2 c
  let nowClosed := st.opens.filter fun c => clusterExpired o ih.2 c
  let matched := stillOpen.filter (hitMatches o ih.2)
  let unmatched := stillOpen.filter fun c => !hitMatches o ih.2 c
  match matched with
  | [] =>
    ⟨unmatched ++ [⟨st.nextId, [ih], ih.2.toa⟩], st.closed ++ nowClosed, st.nextId + 1⟩
  | m :: ms =>
    ⟨unmatched ++
      [⟨ms.foldl (fun a c => min a c.id) m.id,
        ((m :: ms).map OpenCluster.members).flatten ++ [ih],
        (m :: ms).foldl (fun a c => max a c.lastToa) ih.2.toa⟩],
     st.closed ++ nowClosed, st.nextId⟩

/-- Run the Cluster Engine over the whole indexed HitStream. -/
def runEngine (o : ClusterOptions) (hs : List Hit) : EngineState :=
  hs.enum.foldl (engineStep o) ⟨[], [], 0⟩

/-- Modelled from the spec: after the full HitStream is consumed, all
still-open clusters are closed and finalized as well. -/
def finalClusters (o : ClusterOptions) (hs : List Hit) : List OpenCluster :=
  (runEngine o hs).closed ++ (runEngine o hs).opens

/-- Modelled from the spec: the per-hit output of `cluster` - a cluster
identifier or the explicit unclustered/noise sentinel. -/
inductive Label where
  | cluster (id : Nat)
  | noise
deriving DecidableEq, Repr

/-- The label of the hit at stream position `i`: the identifier of the final
cluster containing it, or noise when that cluster is below the minimum
size. -/
def labelOfIndex (o : ClusterOptions) (cs : List OpenCluster) (i : Nat) : Label :=
  match cs.find? (fun c => c.members.any fun m => m.1 == i) with
  | some c => if o.min_cluster_size ≤ (c.members.length : Int) then .cluster c.id else .noise
  | none => .noise

/-- Modelled from the spec: InvalidOptions, the fatal clustering-parameter
error. -/
inductive ClusterError where
  | invalidOptions
deriving DecidableEq, Repr

/-- All recognized options must be positive. -/
def validOptions (o : ClusterOptions) : Bool :=
  decide (0 < o.spatial_radius) && decide (0 < o.temporal_window) &&
    decide (0 < o.min_cluster_size)

/-- Modelled from the spec: `cluster` validates options eagerly (before any
clustering work, with no partial result on failure), then returns one label
per input hit, aligned with the input HitStream order; clusters whose final
member count is below `min_cluster_size` are relabeled as noise. -/
def cluster (hs : List Hit) (o : ClusterOptions) : Except ClusterError (List Label) :=
  if validOptions o then
    .ok ((List.range hs.length).map (labelOfIndex o (finalClusters o hs)))
  else
    .error .invalidOptions

/-- Modelled from the spec: the explicit, documented default clustering
options used when the caller passes none; all values are positive. -/
def defaultOptions : ClusterOptions := ⟨1, 100, 2⟩

/-- The one-argument form of `cluster` used by the example driver. -/
def clusterDefault (hs : List Hit) : Except ClusterError (List Label) :=
  cluster hs defaultOptions

/-- Final clusters that meet the minimum-size threshold and are emitted as
Clusters. -/
def emittedClusters (o : ClusterOptions) (hs : List Hit) : List OpenCluster :=
  (finalClusters o hs).filter fun c => decide (o.min_cluster_size ≤ (c.members.length : Int))

/-- Hits relabeled as noise: members of final clusters below the
minimum-size threshold. -/
def noiseHits (o : ClusterOptions) (hs : List Hit) : List Hit :=
  (((finalClusters o hs).filter fun c =>
      !decide (o.min_cluster_size ≤ (c.members.length : Int))).map
    fun c => c.members.map Prod.snd).flatten

/-- All members currently tracked by the engine, open and finalized. -/
def allMembers (st : EngineState) : List (Nat × Hit) :=
  ((st.opens ++ st.closed).map OpenCluster.members).flatten

/-- File names are modelled as character lists. -/
abbrev FileName : Type := List Char

/-- The case-sensitive suffix ".tpx3" checked by the driver. -/
def tpx3Suffix : List Char := ['.', 't', 'p', 'x', '3']

/-- Embedding of the endswith check of src/example.py line 15: the name ends
in the case-sensitive suffix ".tpx3". -/
def matchesTpx3 (f : FileName) : Bool := tpx3Suffix.isSuffixOf f

/-- Embedding of the loop body of src/example.py for one matching file:
tpx3.load then tpx3.cluster, propagating the first error (the script has no
error handling). -/
def fileStep {E D L : Type} (loadF : FileName → Except E D) (clusterF : D → Except E L)
    (f : FileName) : Except E L :=
  match loadF f with
  | .error e => .error e
  | .ok d => clusterF d

/-- True when a library call succeeded. -/
def stepOk {E L : Type} : Except E L → Bool
  | .ok _ => true
  | .error _ => false

/-- Embedding of the main loop of src/example.py: iterate the directory
listing in order, process each name ending in the case-sensitive suffix
".tpx3" with load then cluster, and stop the whole loop at the first error
since the script installs no handler. Returns the trace of files actually
processed and the terminating error, if any. -/
def runDriver {E D L : Type} (loadF : FileName → Except E D) (clusterF : D → Except E L) :
    List FileName → List FileName × Option E
  | [] => ([], none)
  | f :: fs =>
    if matchesTpx3 f then
      match fileStep loadF clusterF f with
      | .error e => ([f], some e)
      | .ok _ =>
        let r := runDriver loadF clusterF fs
        (f :: r.1, r.2)
    else
      runDriver loadF clusterF fs

/-- The concatenated members of a list of clusters. -/
def memsOf (l : List OpenCluster) : List (Nat × Hit) :=
  (l.map OpenCluster.members).flatten

/-- Sample capture: two pixel-hit words followed by a global-timestamp word. -/
def sampleBytes : List Nat :=
  [11, 1, 2, 0, 5, 9, 0, 0,
   11, 3, 4, 0, 1, 7, 1, 0,
   6, 0, 0, 0, 99, 0, 0, 0]

/-- A single sample hit. -/
def sampleHit : Hit := ⟨0, 0, 0, 0, 0⟩

/-- Witness file names for the driver theorems. -/
def goodName : FileName := ['a', '.', 't', 'p', 'x', '3']

/-- A listed file whose name does not carry the ".tpx3" suffix. -/
def otherName : FileName := ['n', 'o', 't', 'e', 's', '.', 't', 'x', 't']

/-- The file on which the witness load function fails. -/
def badName : FileName := ['b', '.', 't', 'p', 'x', '3']

/-- A matching file listed after the failing one. -/
def lateName : FileName := ['z', '.', 't', 'p', 'x', '3']

/-- Witness library load: loading the bad file fails, everything else
succeeds. -/
def loadW : FileName → Except Nat Nat := fun g => if g = badName then .error 7 else .ok 0

/-- Witness library cluster: always succeeds. -/
def clusterW : Nat → Except Nat Nat := fun _ => .ok 1

/-! Decoder lemmas. -/

lemma decodePackets_trunc (bs : List Nat) (h : bs.length % wordSize = 0) :
    (decodePackets bs).2 = false := by
  rw [decodePackets]
  split
  · next hw =>
    exact decodePackets_trunc (bs.drop wordSize) (by simp only [List.length_drop, wordSize] at h ⊢; omega)
  · next hw =>
    have hz : bs.length = 0 := by simp only [wordSize, not_le] at hw h ⊢; omega
    simp [List.length_eq_zero.mp hz]
termination_by bs.length
decreasing_by simp only [List.length_drop, wordSize] at *; omega

lemma decodePackets_append (bs extra : List Nat) (h : bs.length % wordSize = 0)
    (h1 : extra.length < wordSize) (h2 : extra ≠ []) :
    decodePackets (bs ++ extra) = ((decodePackets bs).1, true) := by
  by_cases hw : wordSize ≤ bs.length
  · rw [decodePackets]
    rw [dif_pos (show wordSize ≤ (bs ++ extra).length by simp only [List.length_append]; omega)]
    conv_rhs => rw [decodePackets]
    rw [dif_pos hw]
    have htake : (bs ++ extra).take wordSize = bs.take wordSize :=
      List.take_append_of_le_length hw
    have hdrop : (bs ++ extra).drop wordSize = bs.drop wordSize ++ extra :=
      List.drop_append_of_le_length hw
    have hrec := decodePackets_append (bs.drop wordSize) extra
      (by simp only [List.length_drop, wordSize] at h ⊢; omega) h1 h2
    simp [htake, hdrop, hrec]
  · have hz : bs.length = 0 := by simp only [wordSize, not_le] at hw h ⊢; omega
    have hbs : bs = [] := List.length_eq_zero.mp hz
    subst hbs
    have hnil : decodePackets [] = ([], false) := by
      rw [decodePackets]
      simp [wordSize]
    rw [List.nil_append, hnil, decodePackets]
    rw [dif_neg (by omega)]
    simp [List.isEmpty_iff, h2]
termination_by bs.length
decreasing_by simp only [List.length_drop, wordSize] at *; omega

/-! Cluster Engine bookkeeping lemmas: every hit index ends up in exactly
one final cluster. -/

lemma memsOf_append (a b : List OpenCluster) : memsOf (a ++ b) = memsOf a ++ memsOf b := by
  simp [memsOf]

lemma allMembers_eq (st : EngineState) :
    allMembers st = memsOf st.opens ++ memsOf st.closed := by
  simp [allMembers, memsOf]

lemma memsOf_split (l : List OpenCluster) (p : OpenCluster → Bool) :
    memsOf (l.filter p) ++ memsOf (l.filter fun c => !p c) ~ memsOf l := by
  have h := (List.filter_append_perm p l).map OpenCluster.members
  rw [List.map_append] at h
  have h2 := h.flatten
  rw [List.flatten_append] at h2
  exact h2

lemma allMembers_engineStep (o : ClusterOptions) (st : EngineState) (ih : Nat × Hit) :
    allMembers (engineStep o st ih) ~ ih :: allMembers st := by
  have hsplit1 := memsOf_split st.opens (fun c => clusterExpired o ih.2 c)
  have hsplit2 := memsOf_split (st.opens.filter fun c => !clusterExpired o ih.2 c)
      (hitMatches o ih.2)
  rw [← Multiset.coe_eq_coe]
  have hms1 : (↑(memsOf (st.opens.filter fun c => clusterExpired o ih.2 c)) +
      ↑(memsOf (st.opens.filter fun c => !clusterExpired o ih.2 c)) : Multiset (Nat × Hit)) =
      ↑(memsOf st.opens) := by
    rw [Multiset.coe_add]; exact Multiset.coe_eq_coe.mpr hsplit1
  have hms2 : (↑(memsOf ((st.opens.filter fun c => !clusterExpired o ih.2 c).filter
        (hitMatches o ih.2))) +
      ↑(memsOf ((st.opens.filter fun c => !clusterExpired o ih.2 c).filter
        fun c => !hitMatches o ih.2 c)) : Multiset (Nat × Hit)) =
      ↑(memsOf (st.opens.filter fun c => !clusterExpired o ih.2 c)) := by
    rw [Multiset.coe_add]; exact Multiset.coe_eq_coe.mpr hsplit2
  rcases hm : (st.opens.filter fun c => !clusterExpired o ih.2 c).filter (hitMatches o ih.2)
    with _ | ⟨m, ms⟩
  · have hstep : engineStep o st ih =
        ⟨(st.opens.filter fun c => !clusterExpired o ih.2 c).filter
            (fun c => !hitMatches o ih.2 c) ++ [⟨st.nextId, [ih], ih.2.toa⟩],
         st.closed ++ st.opens.filter fun c => clusterExpired o ih.2 c,
         st.nextId + 1⟩ := by
      simp only [engineStep]
      rw [hm]
    rw [hm] at hms2
    have hmnil : memsOf ([] : List OpenCluster) = [] := rfl
    rw [hmnil, Multiset.coe_nil, zero_add] at hms2
    have hnew : memsOf [(⟨st.nextId, [ih], ih.2.toa⟩ : OpenCluster)] = [ih] := by
      simp [memsOf]
    rw [hstep, allMembers_eq, allMembers_eq]
    simp only [memsOf_append, hnew]
    simp only [← Multiset.coe_add, ← Multiset.cons_coe, ← Multiset.singleton_add,
      Multiset.coe_singleton, Multiset.coe_nil, add_zero]
    rw [← hms1, ← hms2]
    abel
  · have hstep : engineStep o st ih =
        ⟨(st.opens.filter fun c => !clusterExpired o ih.2 c).filter
            (fun c => !hitMatches o ih.2 c) ++
          [⟨ms.foldl (fun a c => min a c.id) m.id,
            ((m :: ms).map OpenCluster.members).flatten ++ [ih],
            (m :: ms).foldl (fun a c => max a c.lastToa) ih.2.toa⟩],
         st.closed ++ st.opens.filter fun c => clusterExpired o ih.2 c,
         st.nextId⟩ := by
      simp only [engineStep]
      rw [hm]
    have hmerged : memsOf [(⟨ms.foldl (fun a c => min a c.id) m.id,
        ((m :: ms).map OpenCluster.members).flatten ++ [ih],
        (m :: ms).foldl (fun a c => max a c.lastToa) ih.2.toa⟩ : OpenCluster)] =
        memsOf (m :: ms) ++ [ih] := by
      simp [memsOf]
    rw [hstep, allMembers_eq, allMembers_eq]
    simp only [memsOf_append, hmerged]
    rw [← hm]
    simp only [← Multiset.coe_add, ← Multiset.cons_coe, ← Multiset.singleton_add,
      Multiset.coe_singleton, Multiset.coe_nil, add_zero]
    rw [← hms1, ← hms2]
    abel

lemma allMembers_foldl (o : ClusterOptions) (l : List (Nat × Hit)) :
    ∀ st, allMembers (l.foldl (engineStep o) st) ~ allMembers st ++ l := by
  induction l with
  | nil => intro st; simp
  | cons x l ih =>
    intro st
    calc allMembers ((x :: l).foldl (engineStep o) st)
        = allMembers (l.foldl (engineStep o) (engineStep o st x)) := rfl
      _ ~ allMembers (engineStep o st x) ++ l := ih _
      _ ~ (x :: allMembers st) ++ l := (allMembers_engineStep o st x).append_right l
      _ = x :: (allMembers st ++ l) := rfl
      _ ~ allMembers st ++ x :: l := List.perm_middle.symm

lemma finalClusters_perm (o : ClusterOptions) (hs : List Hit) :
    memsOf (finalClusters o hs) ~ hs.enum := by
  have h := allMembers_foldl o hs.enum ⟨[], [], 0⟩
  calc memsOf (finalClusters o hs)
      = memsOf ((runEngine o hs).closed) ++ memsOf ((runEngine o hs).opens) := by
        rw [finalClusters, memsOf_append]
    _ ~ memsOf ((runEngine o hs).opens) ++ memsOf ((runEngine o hs).closed) :=
        List.perm_append_comm
    _ = allMembers (runEngine o hs) := (allMembers_eq _).symm
    _ ~ hs.enum := by rw [runEngine]; simpa using h

lemma finalClusters_snd_perm (o : ClusterOptions) (hs : List Hit) :
    (memsOf (finalClusters o hs)).map Prod.snd ~ hs := by
  have h := (finalClusters_perm o hs).map Prod.snd
  rwa [List.enum_map_snd] at h

lemma finalClusters_fst_nodup (o : ClusterOptions) (hs : List Hit) :
    ((memsOf (finalClusters o hs)).map Prod.fst).Nodup := by
  have h := (finalClusters_perm o hs).map Prod.fst
  rw [List.enum_map_fst] at h
  exact h.nodup_iff.mpr (List.nodup_range _)

lemma find_member_unique :
    ∀ cs : List OpenCluster, ((memsOf cs).map Prod.fst).Nodup →
      ∀ {c : OpenCluster}, c ∈ cs → ∀ {i : Nat} {h : Hit}, (i, h) ∈ c.members →
      cs.find? (fun c2 => c2.members.any fun m => m.1 == i) = some c := by
  intro cs
  induction cs with
  | nil => intro _ c hc; exact absurd hc (List.not_mem_nil c)
  | cons d ds ih =>
    intro hnd c hc i h him
    have hnd2 : ((d.members.map Prod.fst) ++ ((memsOf ds).map Prod.fst)).Nodup := by
      simpa [memsOf, List.map_append] using hnd
    rw [List.nodup_append] at hnd2
    rcases List.mem_cons.mp hc with rfl | hcs
    · rw [List.find?_cons_of_pos]
      exact List.any_eq_true.mpr ⟨(i, h), him, by simp⟩
    · have hdp : (d.members.any fun m => m.1 == i) = false := by
        rw [List.any_eq_false]
        intro m hm
        simp only [beq_iff_eq]
        intro hmi
        have h1 : i ∈ d.members.map Prod.fst := List.mem_map.mpr ⟨m, hm, hmi⟩
        have h2 : i ∈ (memsOf ds).map Prod.fst := by
          apply List.mem_map.mpr
          refine ⟨(i, h), ?_, rfl⟩
          exact List.mem_flatten.mpr ⟨c.members, List.mem_map_of_mem _ hcs, him⟩
        exact hnd2.2.2 h1 h2
      rw [List.find?_cons_of_neg _ (by simp [hdp])]
      exact ih hnd2.2.1 hcs him

/-! Claim theorems (early group). -/

/-- C2: for every capture byte stream whose length is a multiple of the
packet word size, `load` succeeds (no truncation flag) and the HitStream it
returns is ordered non-decreasingly by time-of-arrival; moreover the sort is
stable: the hits are exactly the packet-order hits sorted so that ties
between equal timestamps keep the input packet order. -/
theorem load_sorted_stable (bs : List Nat) (h : bs.length % wordSize = 0) :
    (load bs).truncated = false ∧
    List.Pairwise (fun a b : Hit => a.toa ≤ b.toa) (load bs).hits ∧
    (load bs).hits = (((rawHits bs).enum).mergeSort (List.enumLE toaLE)).map Prod.snd ∧
    List.Pairwise (fun a b : Nat × Hit => a.2.toa < b.2.toa ∨ (a.2.toa = b.2.toa ∧ a.1 ≤ b.1))
      (((rawHits bs).enum).mergeSort (List.enumLE toaLE)) := by
  refine ⟨decodePackets_trunc bs h, ?_, ?_, ?_⟩
  · have hs := @List.sorted_mergeSort Hit toaLE
      (fun a b c hab hbc => by simp only [toaLE, decide_eq_true_eq] at *; omega)
      (fun a b => by simp only [toaLE, Bool.or_eq_true, decide_eq_true_eq]; omega)
      (rawHits bs)
    exact hs.imp (fun hab => by simpa [toaLE] using hab)
  · exact (@List.mergeSort_enum Hit toaLE (rawHits bs)).symm
  · have hs := @List.sorted_mergeSort (Nat × Hit) (List.enumLE toaLE)
      (List.enumLE_trans
        (fun a b c hab hbc => by simp only [toaLE, decide_eq_true_eq] at *; omega))
      (List.enumLE_total
        (fun a b => by simp only [toaLE, Bool.or_eq_true, decide_eq_true_eq]; omega))
      ((rawHits bs).enum)
    refine hs.imp (fun {a b} hab => ?_)
    simp only [List.enumLE, toaLE] at hab
    by_cases h1 : a.2.toa ≤ b.2.toa <;> by_cases h2 : b.2.toa ≤ a.2.toa <;>
      simp [h1, h2] at hab ⊢ <;> omega

theorem load_sorted_stable_witness :
    sampleBytes.length % wordSize = 0 ∧
    ((load sampleBytes).truncated = false ∧
     List.Pairwise (fun a b : Hit => a.toa ≤ b.toa) (load sampleBytes).hits ∧
     (load sampleBytes).hits =
       (((rawHits sampleBytes).enum).mergeSort (List.enumLE toaLE)).map Prod.snd ∧
     List.Pairwise
       (fun a b : Nat × Hit => a.2.toa < b.2.toa ∨ (a.2.toa = b.2.toa ∧ a.1 ≤ b.1))
       (((rawHits sampleBytes).enum).mergeSort (List.enumLE toaLE))) :=
  ⟨by decide, load_sorted_stable sampleBytes (by decide)⟩

/-- C3: `cluster` is deterministic - two runs with identical options on the
same HitStream yield identical label sequences. -/
theorem cluster_deterministic (hs : List Hit) (o : ClusterOptions) (ls1 ls2 : List Label)
    (h1 : cluster hs o = .ok ls1) (h2 : cluster hs o = .ok ls2) : ls1 = ls2 := by
  have := h1.symm.trans h2
  exact (Except.ok.injEq _ _).mp this

theorem cluster_deterministic_witness :
    cluster [] defaultOptions = .ok [] ∧ cluster [] defaultOptions = .ok [] ∧
    ([] : List Label) = [] :=
  ⟨rfl, rfl, cluster_deterministic [] defaultOptions [] [] rfl rfl⟩

/-- C4: whenever any of the three options is non-positive, `cluster` fails
with the InvalidOptions error: the eager validation yields the error as the
whole result, for every HitStream, so no clustering work happens and no
partial result exists. -/
theorem cluster_invalid_options (hs : List Hit) (o : ClusterOptions)
    (h : ¬(0 < o.spatial_radius ∧ 0 < o.temporal_window ∧ 0 < o.min_cluster_size)) :
    cluster hs o = .error .invalidOptions := by
  have hv : validOptions o = false := by
    rw [validOptions]
    by_contra hc
    rw [Bool.not_eq_false, Bool.and_eq_true, Bool.and_eq_true] at hc
    exact h ⟨of_decide_eq_true hc.1.1, of_decide_eq_true hc.1.2, of_decide_eq_true hc.2⟩
  simp [cluster, hv]

theorem cluster_invalid_options_witness :
    ¬(0 < (ClusterOptions.mk 0 5 5).spatial_radius ∧
      0 < (ClusterOptions.mk 0 5 5).temporal_window ∧
      0 < (ClusterOptions.mk 0 5 5).min_cluster_size) ∧
    cluster [] (ClusterOptions.mk 0 5 5) = .error .invalidOptions :=
  ⟨by decide, cluster_invalid_options [] (ClusterOptions.mk 0 5 5) (by decide)⟩

/-- C9: the one-argument form of `cluster` used by the example driver
succeeds on every HitStream, using the documented default options. -/
theorem clusterDefault_ok (hs : List Hit) :
    ∃ ls, clusterDefault hs = .ok ls ∧ ls.length = hs.length := by
  refine ⟨_, rfl, ?_⟩
  simp [clusterDefault, cluster, defaultOptions, validOptions]

/-- C6: a buffer of valid packets followed by 3 extra trailing bytes loads
as a truncation-tagged partial HitStream containing exactly the hits of the
valid prefix; already-decoded packets are not lost. -/
theorem load_truncated_partial (bs extra : List Nat) (h : bs.length % wordSize = 0)
    (he : extra.length = 3) :
    (load (bs ++ extra)).truncated = true ∧
    (load (bs ++ extra)).hits = (load bs).hits ∧
    (load (bs ++ extra)).warnings = (load bs).warnings := by
  have h2 : extra ≠ [] := by intro hx; rw [hx] at he; simp at he
  have hd := decodePackets_append bs extra h (by rw [he]; simp [wordSize]) h2
  refine ⟨?_, ?_, ?_⟩ <;> simp [load, rawHits, hd]

theorem load_truncated_partial_witness :
    sampleBytes.length % wordSize = 0 ∧ ([1, 2, 3] : List Nat).length = 3 ∧
    ((load (sampleBytes ++ [1, 2, 3])).truncated = true ∧
     (load (sampleBytes ++ [1, 2, 3])).hits = (load sampleBytes).hits ∧
     (load (sampleBytes ++ [1, 2, 3])).warnings = (load sampleBytes).warnings) :=
  ⟨by decide, by decide, load_truncated_partial sampleBytes [1, 2, 3] (by decide) (by decide)⟩

/-- C1: with valid options, `cluster` returns labels aligned one-to-one
with the input HitStream order, and the multiset union of hit records
across all emitted Clusters plus the noise-labeled hits is exactly the
input HitStream: no hit is duplicated and none is dropped. -/
theorem cluster_partition (hs : List Hit) (o : ClusterOptions)
    (hv : validOptions o = true) :
    (∃ ls, cluster hs o = .ok ls ∧ ls.length = hs.length) ∧
    (((emittedClusters o hs).map fun c => c.members.map Prod.snd).flatten ++
      noiseHits o hs) ~ hs := by
  constructor
  · exact ⟨(List.range hs.length).map (labelOfIndex o (finalClusters o hs)),
      by simp [cluster, hv], by simp⟩
  · have hsplit := List.filter_append_perm
      (fun c => decide (o.min_cluster_size ≤ (c.members.length : Int))) (finalClusters o hs)
    have h2 := (hsplit.map fun c => c.members.map Prod.snd).flatten
    rw [List.map_append, List.flatten_append] at h2
    have h3 : ((finalClusters o hs).map fun c => c.members.map Prod.snd).flatten =
        (memsOf (finalClusters o hs)).map Prod.snd := by
      simp [memsOf, List.map_flatten, List.map_map, Function.comp_def]
    have h4 := finalClusters_snd_perm o hs
    exact h2.trans (by rw [h3]; exact h4)

theorem cluster_partition_witness :
    validOptions defaultOptions = true ∧
    ((∃ ls, cluster [sampleHit] defaultOptions = .ok ls ∧ ls.length = [sampleHit].length) ∧
     (((emittedClusters defaultOptions [sampleHit]).map fun c => c.members.map Prod.snd).flatten ++
       noiseHits defaultOptions [sampleHit]) ~ [sampleHit]) :=
  ⟨rfl, cluster_partition [sampleHit] defaultOptions rfl⟩

/-- C8: every member of a final cluster whose member count is below
`min_cluster_size` receives the noise sentinel label from `cluster`, not a
small-cluster label. -/
theorem small_cluster_noise (hs : List Hit) (o : ClusterOptions) (ls : List Label)
    (hok : cluster hs o = .ok ls) (c : OpenCluster) (hc : c ∈ finalClusters o hs)
    (hsmall : (c.members.length : Int) < o.min_cluster_size)
    (i : Nat) (h : Hit) (him : (i, h) ∈ c.members) :
    ls[i]? = some .noise := by
  by_cases hv : validOptions o
  · have hls : ls = (List.range hs.length).map (labelOfIndex o (finalClusters o hs)) := by
      have h0 : cluster hs o =
          .ok ((List.range hs.length).map (labelOfIndex o (finalClusters o hs))) := by
        simp [cluster, hv]
      rw [h0] at hok
      exact ((Except.ok.injEq _ _).mp hok).symm
    have hmem : (i, h) ∈ memsOf (finalClusters o hs) := by
      simp only [memsOf]
      exact List.mem_flatten.mpr ⟨c.members, List.mem_map_of_mem _ hc, him⟩
    have hienum : (i, h) ∈ hs.enum := (finalClusters_perm o hs).mem_iff.mp hmem
    have hilen : i < hs.length := List.fst_lt_of_mem_enum hienum
    subst hls
    rw [List.getElem?_map, List.getElem?_range hilen]
    simp only [Option.map_some']
    rw [labelOfIndex, find_member_unique (finalClusters o hs)
      (finalClusters_fst_nodup o hs) hc him]
    show some (if o.min_cluster_size ≤ (c.members.length : Int) then Label.cluster c.id
      else Label.noise) = some Label.noise
    rw [if_neg (by omega)]
  · simp [cluster, hv] at hok

theorem small_cluster_noise_witness :
    cluster [sampleHit] defaultOptions = .ok [.noise] ∧
    (⟨0, [(0, sampleHit)], 0⟩ : OpenCluster) ∈ finalClusters defaultOptions [sampleHit] ∧
    (((⟨0, [(0, sampleHit)], 0⟩ : OpenCluster).members.length : Int) <
      defaultOptions.min_cluster_size) ∧
    (0, sampleHit) ∈ (⟨0, [(0, sampleHit)], 0⟩ : OpenCluster).members ∧
    ([Label.noise] : List Label)[0]? = some .noise :=
  ⟨rfl, by decide, by decide, by decide,
   small_cluster_noise [sampleHit] defaultOptions [.noise] rfl ⟨0, [(0, sampleHit)], 0⟩
     (by decide) (by decide) 0 sampleHit (by decide)⟩

/-- C7: transitive merge via a bridge hit, with deterministic lower-id
survival: two hits farther apart than the radius from each other, but each
within radius and window of a later bridge hit, end up in one single
cluster whose surviving identifier is the lower-numbered one (0, not 1). -/
theorem bridge_merge (a b c : Hit) (o : ClusterOptions)
    (hv : validOptions o = true)
    (hmin : o.min_cluster_size ≤ 3)
    (hab : o.spatial_radius < (cheb b a : Int))
    (hac : (cheb c a : Int) ≤ o.spatial_radius)
    (hbc : (cheb c b : Int) ≤ o.spatial_radius)
    (hab_t : a.toa ≤ b.toa) (hbc_t : b.toa ≤ c.toa)
    (hw : (c.toa : Int) - (a.toa : Int) ≤ o.temporal_window) :
    cluster [a, b, c] o = .ok [.cluster 0, .cluster 0, .cluster 0] := by
  have hexp_b_a : clusterExpired o b ⟨0, [(0, a)], a.toa⟩ = false := by
    simp only [clusterExpired, decide_eq_false_iff_not, not_lt]
    omega
  have hmatch_b : hitMatches o b ⟨0, [(0, a)], a.toa⟩ = false := by
    simp only [hitMatches, List.any_cons, List.any_nil, Bool.or_false,
      decide_eq_false_iff_not]
    intro hcon
    exact absurd hcon.1 (by omega)
  have hexp_c_a : clusterExpired o c ⟨0, [(0, a)], a.toa⟩ = false := by
    simp only [clusterExpired, decide_eq_false_iff_not, not_lt]
    omega
  have hexp_c_b : clusterExpired o c ⟨1, [(1, b)], b.toa⟩ = false := by
    simp only [clusterExpired, decide_eq_false_iff_not, not_lt]
    omega
  have hmatch_c_a : hitMatches o c ⟨0, [(0, a)], a.toa⟩ = true := by
    simp only [hitMatches, List.any_cons, List.any_nil, Bool.or_false, decide_eq_true_eq]
    refine ⟨hac, ?_⟩
    simp only [tdist]
    omega
  have hmatch_c_b : hitMatches o c ⟨1, [(1, b)], b.toa⟩ = true := by
    simp only [hitMatches, List.any_cons, List.any_nil, Bool.or_false, decide_eq_true_eq]
    refine ⟨hbc, ?_⟩
    simp only [tdist]
    omega
  have e1 : engineStep o ⟨[], [], 0⟩ (0, a) = ⟨[⟨0, [(0, a)], a.toa⟩], [], 1⟩ := rfl
  have e2 : engineStep o ⟨[⟨0, [(0, a)], a.toa⟩], [], 1⟩ (1, b) =
      ⟨[⟨0, [(0, a)], a.toa⟩, ⟨1, [(1, b)], b.toa⟩], [], 2⟩ := by
    simp [engineStep, hexp_b_a, hmatch_b]
  have e3 : engineStep o ⟨[⟨0, [(0, a)], a.toa⟩, ⟨1, [(1, b)], b.toa⟩], [], 2⟩ (2, c) =
      ⟨[⟨0, [(0, a), (1, b), (2, c)], max (max c.toa a.toa) b.toa⟩], [], 2⟩ := by
    simp [engineStep, hexp_c_a, hexp_c_b, hmatch_c_a, hmatch_c_b]
  have hrun : runEngine o [a, b, c] =
      ⟨[⟨0, [(0, a), (1, b), (2, c)], max (max c.toa a.toa) b.toa⟩], [], 2⟩ := by
    rw [runEngine]
    rw [show ([a, b, c] : List Hit).enum = [(0, a), (1, b), (2, c)] from rfl]
    rw [List.foldl_cons, e1, List.foldl_cons, e2, List.foldl_cons, e3, List.foldl_nil]
  have hfinal : finalClusters o [a, b, c] =
      [⟨0, [(0, a), (1, b), (2, c)], max (max c.toa a.toa) b.toa⟩] := by
    rw [finalClusters, hrun]
    rfl
  have hcl : cluster [a, b, c] o =
      .ok ((List.range 3).map (labelOfIndex o (finalClusters o [a, b, c]))) := by
    simp [cluster, hv]
  rw [hcl, hfinal, show List.range 3 = [0, 1, 2] from rfl]
  simp [labelOfIndex, hmin]

theorem bridge_merge_witness :
    validOptions (ClusterOptions.mk 2 10 2) = true ∧
    (ClusterOptions.mk 2 10 2).min_cluster_size ≤ 3 ∧
    (ClusterOptions.mk 2 10 2).spatial_radius <
      (cheb ⟨4, 0, 1, 0, 0⟩ ⟨0, 0, 0, 0, 0⟩ : Int) ∧
    (cheb ⟨2, 0, 2, 0, 0⟩ ⟨0, 0, 0, 0, 0⟩ : Int) ≤ (ClusterOptions.mk 2 10 2).spatial_radius ∧
    (cheb ⟨2, 0, 2, 0, 0⟩ ⟨4, 0, 1, 0, 0⟩ : Int) ≤ (ClusterOptions.mk 2 10 2).spatial_radius ∧
    (⟨0, 0, 0, 0, 0⟩ : Hit).toa ≤ (⟨4, 0, 1, 0, 0⟩ : Hit).toa ∧
    (⟨4, 0, 1, 0, 0⟩ : Hit).toa ≤ (⟨2, 0, 2, 0, 0⟩ : Hit).toa ∧
    ((⟨2, 0, 2, 0, 0⟩ : Hit).toa : Int) - ((⟨0, 0, 0, 0, 0⟩ : Hit).toa : Int) ≤
      (ClusterOptions.mk 2 10 2).temporal_window ∧
    cluster [⟨0, 0, 0, 0, 0⟩, ⟨4, 0, 1, 0, 0⟩, ⟨2, 0, 2, 0, 0⟩] (ClusterOptions.mk 2 10 2) =
      .ok [.cluster 0, .cluster 0, .cluster 0] :=
  ⟨by decide, by decide, by decide, by decide, by decide, by decide, by decide, by decide,
   bridge_merge ⟨0, 0, 0, 0, 0⟩ ⟨4, 0, 1, 0, 0⟩ ⟨2, 0, 2, 0, 0⟩ (ClusterOptions.mk 2 10 2)
     (by decide) (by decide) (by decide) (by decide) (by decide)
     (by decide) (by decide) (by decide)⟩

/-- C5: the Hit Assembler corrects local-timer rollover: when the local
timestamp of a PixelHit decreases relative to the previous PixelHit under
the same base by more than half the local counter range, the rollover-epoch
counter is incremented before combining with the base, and the absolute
time-of-arrival values are strictly increasing across the wrap boundary. -/
theorem rollover_correction
    (s s1 s2 : AsmState) (h1 h2 : Hit)
    (c1 r1 t1 tot1 ch1 c2 r2 t2 tot2 ch2 : Nat)
    (ht1 : t1 < localRange) (hwrap : t2 < t1) (hhalf : localRange / 2 < t1 - t2)
    (e1 : asmStep s (.pixelHit c1 r1 t1 tot1 ch1) = (s1, some h1))
    (e2 : asmStep s1 (.pixelHit c2 r2 t2 tot2 ch2) = (s2, some h2)) :
    s2.epochs = s1.epochs + 1 ∧ h1.toa < h2.toa := by
  simp only [asmStep] at e1
  by_cases hb1 : c1 < sensorWidth ∧ r1 < sensorHeight
  · rw [if_pos hb1] at e1
    rw [Prod.mk.injEq, Option.some.injEq] at e1
    obtain ⟨hs1, hh1⟩ := e1
    subst hs1
    subst hh1
    simp only [asmStep] at e2
    by_cases hb2 : c2 < sensorWidth ∧ r2 < sensorHeight
    · rw [if_pos hb2] at e2
      simp only [if_pos (And.intro hwrap hhalf)] at e2
      rw [Prod.mk.injEq, Option.some.injEq] at e2
      obtain ⟨hs2, hh2⟩ := e2
      subst hs2
      subst hh2
      refine ⟨rfl, ?_⟩
      simp only [localRange] at ht1 ⊢
      cases hp : s.prevLocal with
      | none => simp only [hp]; omega
      | some prev =>
        simp only [hp]
        by_cases hc : t1 < prev ∧ 65536 / 2 < prev - t1
        · rw [if_pos hc]; omega
        · rw [if_neg hc]; omega
    · rw [if_neg hb2] at e2
      simp at e2
  · rw [if_neg hb1] at e1
    simp at e1

theorem rollover_correction_witness :
    (60000 < localRange ∧ 1 < 60000 ∧ localRange / 2 < 60000 - 1) ∧
    asmStep initState (.pixelHit 0 0 60000 0 0) =
      (⟨0, 0, some 60000, 0⟩, some ⟨0, 0, 60000, 0, 0⟩) ∧
    asmStep ⟨0, 0, some 60000, 0⟩ (.pixelHit 0 0 1 0 0) =
      (⟨0, 1, some 1, 0⟩, some ⟨0, 0, 65537, 0, 0⟩) ∧
    ((⟨0, 1, some 1, 0⟩ : AsmState).epochs = (⟨0, 0, some 60000, 0⟩ : AsmState).epochs + 1 ∧
     (⟨0, 0, 60000, 0, 0⟩ : Hit).toa < (⟨0, 0, 65537, 0, 0⟩ : Hit).toa) :=
  ⟨⟨by decide, by decide, by decide⟩, by decide, by decide,
   rollover_correction initState ⟨0, 0, some 60000, 0⟩ ⟨0, 1, some 1, 0⟩
     ⟨0, 0, 60000, 0, 0⟩ ⟨0, 0, 65537, 0, 0⟩ 0 0 60000 0 0 0 0 1 0 0
     (by decide) (by decide) (by decide) (by decide) (by decide)⟩

/-- C10: the example driver applies `load` then `cluster` to exactly those
directory entries ending in the case-sensitive suffix ".tpx3", in listing
order, and performs no error handling: the first failing library call
terminates the loop, so no later file is processed. The first conjunct
covers error-free listings, the second the aborted run: the processed trace
stops at the failing file and the files after it never appear. -/
theorem driver_no_error_handling {E D L : Type} (loadF : FileName → Except E D)
    (clusterF : D → Except E L) (fs1 fs2 : List FileName) (f : FileName) (e : E)
    (hok : ∀ g ∈ fs1, matchesTpx3 g = true → stepOk (fileStep loadF clusterF g) = true)
    (hf : matchesTpx3 f = true)
    (hfail : fileStep loadF clusterF f = .error e) :
    (∀ gs : List FileName,
      (∀ g ∈ gs, matchesTpx3 g = true → stepOk (fileStep loadF clusterF g) = true) →
      runDriver loadF clusterF gs = (gs.filter matchesTpx3, none)) ∧
    runDriver loadF clusterF (fs1 ++ f :: fs2) =
      (fs1.filter matchesTpx3 ++ [f], some e) := by
  constructor
  · intro gs
    induction gs with
    | nil => intro _; rfl
    | cons g gs ih =>
      intro hgs
      have hrest := ih (fun x hx hx2 => hgs x (List.mem_cons_of_mem _ hx) hx2)
      by_cases hg : matchesTpx3 g
      · have hsOk := hgs g (List.mem_cons_self _ _) hg
        cases hstep : fileStep loadF clusterF g with
        | error e2 => rw [hstep] at hsOk; simp [stepOk] at hsOk
        | ok l => simp [runDriver, hg, hstep, hrest, List.filter_cons]
      · simp [runDriver, hg, hrest, List.filter_cons]
  · revert hok
    induction fs1 with
    | nil => intro _; simp [runDriver, hf, hfail]
    | cons g gs1 ih =>
      intro hok
      have hrest := ih (fun x hx hx2 => hok x (List.mem_cons_of_mem _ hx) hx2)
      by_cases hg : matchesTpx3 g
      · have hsOk := hok g (List.mem_cons_self _ _) hg
        cases hstep : fileStep loadF clusterF g with
        | error e2 => rw [hstep] at hsOk; simp [stepOk] at hsOk
        | ok l => simp [runDriver, hg, hstep, hrest, List.filter_cons]
      · simp [runDriver, hg, hrest, List.filter_cons]

theorem driver_no_error_handling_witness :
    (∀ g ∈ [goodName, otherName], matchesTpx3 g = true →
      stepOk (fileStep loadW clusterW g) = true) ∧
    matchesTpx3 badName = true ∧
    fileStep loadW clusterW badName = .error 7 ∧
    ((∀ gs : List FileName,
        (∀ g ∈ gs, matchesTpx3 g = true → stepOk (fileStep loadW clusterW g) = true) →
        runDriver loadW clusterW gs = (gs.filter matchesTpx3, none)) ∧
     runDriver loadW clusterW ([goodName, otherName] ++ badName :: [lateName]) =
       ([goodName, otherName].filter matchesTpx3 ++ [badName], some 7)) :=
  ⟨by decide, by decide, rfl,
   driver_no_error_handling loadW clusterW [goodName, otherName] [lateName] badName 7
     (by decide) (by decide) rfl⟩

end timepix3
